import Mathlib

/-!
Verification of the `DynamicProperties` registration layer
(`src/DynamicProperties.py`): a Blender add-on helper that maintains an
ordered collection of typed property descriptors (`PropertyCollection`)
and a registrar (`DynamicProperties`) that installs a synthesized
property-group class and panel class with the host and tracks them in a
process-wide table (`registered_properties`).

The embedding below models Python dictionaries as association lists with
Python's semantics (assignment overwrites in place preserving insertion
order, otherwise appends; deletion removes the entry; iteration follows
list order), Python values occurring in the option dictionaries as a
small inductive type (the float literals 0.0 and 1.0 are carried as the
exact integers 0 and 1 — they are only stored, never computed with), and
the host's class registry (`bpy.utils.register_class` /
`unregister_class`) as a list of installed classes, where registering
adds a freshly-identified class and unregistering removes it, raising
(OverflowError-style, always swallowed by the caller here) when the
argument is `None` or not installed.
-/

/-- A Python value as it occurs in the keyword-argument dictionaries of
`bpy.props.*Property` constructor calls. -/
inductive PyVal where
  | str (s : String)
  | int (n : Int)
  | bool (b : Bool)
  | strset (l : List String)
deriving DecidableEq

/-- Association list standing for a Python `dict` with `String` keys. -/
abbrev Dict (α : Type) := List (String × α)

/-- Python `d[k]` / `d.get(k)`: the value at the first matching key. -/
def dictGet {α : Type} : Dict α → String → Option α
  | [], _ => none
  | (k', v) :: rest, k => if k' = k then some v else dictGet rest k

/-- Python `d[k] = v`: overwrite in place if the key is present,
otherwise append at the end (insertion order). -/
def dictSet {α : Type} : Dict α → String → α → Dict α
  | [], k, v => [(k, v)]
  | (k', v') :: rest, k, v =>
      if k' = k then (k, v) :: rest else (k', v') :: dictSet rest k v

/-- Python `del d[k]` with a swallowed `KeyError`: drop every entry
under the key (on genuine dict states there is at most one; deleting an
absent key leaves the dict unchanged, as the source's `try/except`
does). -/
def dictDel {α : Type} : Dict α → String → Dict α
  | [], _ => []
  | (k', v) :: rest, k =>
      if k' = k then dictDel rest k else (k', v) :: dictDel rest k

/-- Python `{**a, **b}`: entries of `a` then entries of `b`, the
entries of `b` overwriting on key collision. -/
def dictMerge {α : Type} (a b : Dict α) : Dict α :=
  b.foldl (fun acc kv => dictSet acc kv.1 kv.2) a

/-- First-some choice on options (used to state merge lookups). -/
def optOr {α : Type} : Option α → Option α → Option α
  | some v, _ => some v
  | none, b => b

theorem dictGet_dictSet {α : Type} (d : Dict α) (k q : String) (v : α) :
    dictGet (dictSet d k v) q = if k = q then some v else dictGet d q := by
  induction d with
  | nil => simp [dictSet, dictGet]
  | cons hd tl ih =>
      obtain ⟨k', v'⟩ := hd
      by_cases hk : k' = k
      · subst hk
        by_cases hq : k' = q <;> simp [dictSet, dictGet, hq]
      · by_cases hq : k' = q
        · subst hq
          have : ¬ k = k' := fun h => hk h.symm
          simp [dictSet, dictGet, hk, this]
        · simp [dictSet, dictGet, hk, hq, ih]

theorem dictGet_dictDel {α : Type} (d : Dict α) (k q : String) :
    dictGet (dictDel d k) q = if k = q then none else dictGet d q := by
  induction d with
  | nil => simp [dictDel, dictGet]
  | cons hd tl ih =>
      obtain ⟨k', v'⟩ := hd
      by_cases hk : k' = k
      · subst hk
        by_cases hq : k' = q
        · subst hq; simpa [dictDel, dictGet] using ih
        · simp [dictDel, dictGet, hq, ih]
      · by_cases hq : k' = q
        · subst hq
          have : ¬ k = k' := fun h => hk h.symm
          simp [dictDel, dictGet, hk, this]
        · simp [dictDel, dictGet, hk, hq, ih]

theorem dictGet_eq_none_of_not_mem {α : Type} (d : Dict α) (k : String)
    (h : k ∉ d.map Prod.fst) : dictGet d k = none := by
  induction d with
  | nil => rfl
  | cons hd tl ih =>
      obtain ⟨k', v'⟩ := hd
      simp only [List.map_cons, List.mem_cons] at h
      push_neg at h
      have hne : k' ≠ k := fun he => h.1 he.symm
      simpa [dictGet, hne] using ih h.2

theorem dictGet_dictMerge {α : Type} (b : Dict α)
    (hb : (b.map Prod.fst).Nodup) (a : Dict α) (q : String) :
    dictGet (dictMerge a b) q = optOr (dictGet b q) (dictGet a q) := by
  induction b generalizing a with
  | nil => simp [dictMerge, dictGet, optOr]
  | cons hd tl ih =>
      obtain ⟨k0, v0⟩ := hd
      simp only [List.map_cons, List.nodup_cons] at hb
      have hstep : dictMerge a ((k0, v0) :: tl) = dictMerge (dictSet a k0 v0) tl := rfl
      rw [hstep, ih hb.2]
      by_cases hq : k0 = q
      · subst hq
        have : dictGet tl k0 = none := dictGet_eq_none_of_not_mem tl k0 hb.1
        simp [dictGet, this, optOr, dictGet_dictSet]
      · simp only [dictGet, hq, if_neg hq]
        cases htl : dictGet tl q with
        | some v => simp [optOr]
        | none => simp [optOr, dictGet_dictSet, hq]

theorem dictDel_of_get_none {α : Type} (d : Dict α) (k : String)
    (h : dictGet d k = none) : dictDel d k = d := by
  induction d with
  | nil => rfl
  | cons hd tl ih =>
      obtain ⟨k', v'⟩ := hd
      by_cases hk : k' = k
      · simp [dictGet, hk] at h
      · simp only [dictGet, if_neg hk] at h
        simp [dictDel, hk, ih h]

theorem dictDel_dictSet_of_none {α : Type} (d : Dict α) (k : String) (v : α)
    (h : dictGet d k = none) : dictDel (dictSet d k v) k = d := by
  induction d with
  | nil => simp [dictSet, dictDel]
  | cons hd tl ih =>
      obtain ⟨k', v'⟩ := hd
      by_cases hk : k' = k
      · simp [dictGet, hk] at h
      · simp only [dictGet, if_neg hk] at h
        simp [dictSet, dictDel, hk, ih h]

theorem dictDel_dictDel {α : Type} (d : Dict α) (k : String) :
    dictDel (dictDel d k) k = dictDel d k := by
  induction d with
  | nil => rfl
  | cons hd tl ih =>
      obtain ⟨k', v'⟩ := hd
      by_cases hk : k' = k
      · simp [dictDel, hk, ih]
      · simp [dictDel, hk, ih]

/-- Which `bpy.props` constructor a collection entry holds. -/
inductive CtorKind where
  | FloatProperty
  | BoolProperty
  | StringProperty
  | FloatVectorProperty
  | EnumProperty
  | PointerProperty
deriving DecidableEq

/-- A `bpy.props.*Property(**args)` call as stored in
`PropertyCollection.props`: the constructor used, and the keyword
dictionary it received. -/
structure PropCtor where
  kind : CtorKind
  args : Dict PyVal
deriving DecidableEq

/-- One entry of `PropertyCollection.meta`: the tuple
`(type_str, name, description)` from the source. -/
abbrev MetaVal := String × String × PyVal

/-- The caller-supplied `**kwargs` of an `add_*` call. -/
abbrev Args := Dict PyVal

/-- Python `kwargs.get('description', '')`. -/
def getDescription (kwargs : Args) : PyVal :=
  (dictGet kwargs "description").getD (PyVal.str "")

/-- `PropertyCollection`: the `props` dict (key to property constructor)
and the `meta` dict (key to `(type_str, name, description)`). -/
structure PropertyCollection where
  props : Dict PropCtor
  meta : Dict MetaVal
deriving DecidableEq

/-- `PropertyCollection.add_header`: only a `meta` entry, no constructor. -/
def PropertyCollection.add_header (c : PropertyCollection) (key text : String) :
    PropertyCollection :=
  { c with meta := dictSet c.meta key ("header", text, PyVal.str "") }

/-- `PropertyCollection.add_float`: `args = {**kwargs, **{'name': name}}`. -/
def PropertyCollection.add_float (c : PropertyCollection) (key name : String)
    (kwargs : Args) : PropertyCollection :=
  let args := dictMerge kwargs [("name", PyVal.str name)]
  { props := dictSet c.props key { kind := CtorKind.FloatProperty, args := args },
    meta := dictSet c.meta key ("float", name, getDescription kwargs) }

/-- `PropertyCollection.add_bool`. -/
def PropertyCollection.add_bool (c : PropertyCollection) (key name : String)
    (kwargs : Args) : PropertyCollection :=
  let args := dictMerge kwargs [("name", PyVal.str name)]
  { props := dictSet c.props key { kind := CtorKind.BoolProperty, args := args },
    meta := dictSet c.meta key ("bool", name, getDescription kwargs) }

/-- `PropertyCollection.add_str`. -/
def PropertyCollection.add_str (c : PropertyCollection) (key name : String)
    (kwargs : Args) : PropertyCollection :=
  let args := dictMerge kwargs [("name", PyVal.str name)]
  { props := dictSet c.props key { kind := CtorKind.StringProperty, args := args },
    meta := dictSet c.meta key ("str", name, getDescription kwargs) }

/-- `PropertyCollection.add_vec2`: fixed `size = 2` merged over kwargs. -/
def PropertyCollection.add_vec2 (c : PropertyCollection) (key name : String)
    (kwargs : Args) : PropertyCollection :=
  let args := dictMerge kwargs [("size", PyVal.int 2), ("name", PyVal.str name)]
  { props := dictSet c.props key { kind := CtorKind.FloatVectorProperty, args := args },
    meta := dictSet c.meta key ("vec2", name, getDescription kwargs) }

/-- `PropertyCollection.add_vec3`: fixed `size = 3` merged over kwargs. -/
def PropertyCollection.add_vec3 (c : PropertyCollection) (key name : String)
    (kwargs : Args) : PropertyCollection :=
  let args := dictMerge kwargs [("size", PyVal.int 3), ("name", PyVal.str name)]
  { props := dictSet c.props key { kind := CtorKind.FloatVectorProperty, args := args },
    meta := dictSet c.meta key ("vec3", name, getDescription kwargs) }

/-- `PropertyCollection.add_rgb`: fixed `size = 3`, `subtype = 'COLOR'`,
`min = 0.0`, `max = 1.0` merged over kwargs. -/
def PropertyCollection.add_rgb (c : PropertyCollection) (key name : String)
    (kwargs : Args) : PropertyCollection :=
  let args := dictMerge kwargs
    [("size", PyVal.int 3), ("name", PyVal.str name), ("subtype", PyVal.str "COLOR"),
     ("min", PyVal.int 0), ("max", PyVal.int 1)]
  { props := dictSet c.props key { kind := CtorKind.FloatVectorProperty, args := args },
    meta := dictSet c.meta key ("rgb", name, getDescription kwargs) }

/-- `PropertyCollection.add_rgba`: fixed `size = 4`, `subtype = 'COLOR'`,
`min = 0.0`, `max = 1.0` merged over kwargs. -/
def PropertyCollection.add_rgba (c : PropertyCollection) (key name : String)
    (kwargs : Args) : PropertyCollection :=
  let args := dictMerge kwargs
    [("size", PyVal.int 4), ("name", PyVal.str name), ("subtype", PyVal.str "COLOR"),
     ("min", PyVal.int 0), ("max", PyVal.int 1)]
  { props := dictSet c.props key { kind := CtorKind.FloatVectorProperty, args := args },
    meta := dictSet c.meta key ("rgba", name, getDescription kwargs) }

/-- `PropertyCollection.add_enum`. -/
def PropertyCollection.add_enum (c : PropertyCollection) (key name : String)
    (kwargs : Args) : PropertyCollection :=
  let args := dictMerge kwargs [("name", PyVal.str name)]
  { props := dictSet c.props key { kind := CtorKind.EnumProperty, args := args },
    meta := dictSet c.meta key ("enum", name, getDescription kwargs) }

/-- `PropertyCollection.add_file`: fixed `subtype = 'FILE_PATH'`. -/
def PropertyCollection.add_file (c : PropertyCollection) (key name : String)
    (kwargs : Args) : PropertyCollection :=
  let args := dictMerge kwargs [("name", PyVal.str name), ("subtype", PyVal.str "FILE_PATH")]
  { props := dictSet c.props key { kind := CtorKind.StringProperty, args := args },
    meta := dictSet c.meta key ("file", name, getDescription kwargs) }

/-- `PropertyCollection.add_dir`: fixed `subtype = 'DIR_PATH'`. -/
def PropertyCollection.add_dir (c : PropertyCollection) (key name : String)
    (kwargs : Args) : PropertyCollection :=
  let args := dictMerge kwargs [("name", PyVal.str name), ("subtype", PyVal.str "DIR_PATH")]
  { props := dictSet c.props key { kind := CtorKind.StringProperty, args := args },
    meta := dictSet c.meta key ("dir", name, getDescription kwargs) }

/-- `PropertyCollection.add_image`: a `PointerProperty` to
`bpy.types.Image`; takes `description` positionally, no kwargs. -/
def PropertyCollection.add_image (c : PropertyCollection)
    (key name description : String) : PropertyCollection :=
  { props := dictSet c.props key
      { kind := CtorKind.PointerProperty,
        args := [("name", PyVal.str name), ("description", PyVal.str description),
                 ("type", PyVal.str "Image")] },
    meta := dictSet c.meta key ("image", name, PyVal.str description) }

/-- `PropertyCollection.remove`: delete the `props` and `meta` entries
for the key if present, no-op otherwise. -/
def PropertyCollection.remove (c : PropertyCollection) (key : String) :
    PropertyCollection :=
  { props := dictDel c.props key, meta := dictDel c.meta key }

/-- `PropertyCollection.clear`: reset both dicts, then re-insert the
reserved `enabled` boolean via
`add_bool('enabled', name='enabled', default=enabled, options=set-of-HIDDEN)`. -/
def PropertyCollection.clear (_c : PropertyCollection) (enabled : Bool) :
    PropertyCollection :=
  PropertyCollection.add_bool { props := [], meta := [] } "enabled" "enabled"
    [("default", PyVal.bool enabled), ("options", PyVal.strset ["HIDDEN"])]

/-- `PropertyCollection.__init__(enabled)`: delegates to `clear`. -/
def PropertyCollection.init (enabled : Bool) : PropertyCollection :=
  PropertyCollection.clear { props := [], meta := [] } enabled

/-- An instance of a synthesized `BaseDynamicPropertyGroup` subclass:
the `meta` dict the class was tagged with (a snapshot of the owning
collection's `meta`), and attribute access on the instance
(`getattr(self, key)`), which yields the field's current value. -/
structure BaseDynamicPropertyGroup where
  meta : Dict MetaVal
  getattr : String → PyVal

/-- The loop body of `BaseDynamicPropertyGroup.items`: the Python code
builds a fresh dict, assigning `items[key] = (meta[0], getattr(self, key))`
for every entry whose key is not `'enabled'` and whose tag is not
`'header'`. -/
def itemsBody (g : BaseDynamicPropertyGroup)
    (acc : Dict (String × PyVal)) (kv : String × MetaVal) : Dict (String × PyVal) :=
  if kv.1 ≠ "enabled" ∧ kv.2.1 ≠ "header" then
    dictSet acc kv.1 (kv.2.1, g.getattr kv.1)
  else acc

/-- `BaseDynamicPropertyGroup.items`: iterate `self.meta` in insertion
order, building the result dict. -/
def BaseDynamicPropertyGroup.items (g : BaseDynamicPropertyGroup) :
    Dict (String × PyVal) :=
  g.meta.foldl (itemsBody g) []

/-- The same iteration written as a `filterMap`, used to reason about
`items` when the `meta` keys are unique (as they are for every dict). -/
def itemsPure (g : BaseDynamicPropertyGroup) (l : Dict MetaVal) :
    Dict (String × PyVal) :=
  l.filterMap (fun kv =>
    if kv.1 ≠ "enabled" ∧ kv.2.1 ≠ "header" then
      some (kv.1, (kv.2.1, g.getattr kv.1))
    else none)

theorem dictGet_append {α : Type} (a b : Dict α) (k : String) :
    dictGet (a ++ b) k = optOr (dictGet a k) (dictGet b k) := by
  induction a with
  | nil => simp [dictGet, optOr]
  | cons hd tl ih =>
      obtain ⟨k', v'⟩ := hd
      by_cases hk : k' = k
      · simp [dictGet, hk, optOr]
      · simp [dictGet, hk, ih]

theorem dictSet_of_get_none {α : Type} (d : Dict α) (k : String) (v : α)
    (h : dictGet d k = none) : dictSet d k v = d ++ [(k, v)] := by
  induction d with
  | nil => rfl
  | cons hd tl ih =>
      obtain ⟨k', v'⟩ := hd
      by_cases hk : k' = k
      · simp [dictGet, hk] at h
      · simp only [dictGet, if_neg hk] at h
        simp [dictSet, hk, ih h]

theorem items_foldl_eq (g : BaseDynamicPropertyGroup) (l : Dict MetaVal)
    (hl : (l.map Prod.fst).Nodup) :
    ∀ acc : Dict (String × PyVal), (∀ kv ∈ l, dictGet acc kv.1 = none) →
      l.foldl (itemsBody g) acc = acc ++ itemsPure g l := by
  induction l with
  | nil => intro acc _; simp [itemsPure]
  | cons hd tl ih =>
      intro acc hacc
      simp only [List.map_cons, List.nodup_cons] at hl
      obtain ⟨k0, m0⟩ := hd
      have hacc0 : dictGet acc k0 = none := hacc (k0, m0) (List.mem_cons_self _ _)
      by_cases hc : k0 ≠ "enabled" ∧ m0.1 ≠ "header"
      · have hbody : itemsBody g acc (k0, m0) =
            acc ++ [(k0, (m0.1, g.getattr k0))] := by
          simp only [itemsBody, if_pos hc]
          exact dictSet_of_get_none acc k0 _ hacc0
        have hpre : ∀ kv ∈ tl, dictGet (acc ++ [(k0, (m0.1, g.getattr k0))]) kv.1 = none := by
          intro kv hkv
          have hne : kv.1 ≠ k0 := by
            intro he
            exact hl.1 (he ▸ (List.mem_map.mpr ⟨kv, hkv, rfl⟩))
          have hk : ¬ k0 = kv.1 := fun h => hne h.symm
          have hone : dictGet ([(k0, (m0.1, g.getattr k0))] : Dict (String × PyVal)) kv.1 = none := by
            simp [dictGet, hk]
          rw [dictGet_append, hacc kv (List.mem_cons_of_mem _ hkv), hone]
          rfl
        rw [List.foldl_cons, hbody, ih hl.2 _ hpre, List.append_assoc]
        simp [itemsPure, List.filterMap_cons, if_pos hc]
      · have hbody : itemsBody g acc (k0, m0) = acc := by
          simp only [itemsBody, if_neg hc]
        rw [List.foldl_cons, hbody,
          ih hl.2 _ (fun kv hkv => hacc kv (List.mem_cons_of_mem _ hkv))]
        simp [itemsPure, List.filterMap_cons, if_neg hc]

theorem items_eq_itemsPure (g : BaseDynamicPropertyGroup)
    (hg : (g.meta.map Prod.fst).Nodup) :
    g.items = itemsPure g g.meta := by
  have := items_foldl_eq g g.meta hg [] (fun kv _ => rfl)
  simpa [BaseDynamicPropertyGroup.items] using this

theorem itemsPure_keys_subset (g : BaseDynamicPropertyGroup) (l : Dict MetaVal)
    (q : String) (h : q ∈ (itemsPure g l).map Prod.fst) : q ∈ l.map Prod.fst := by
  simp only [List.map_filterMap, List.mem_filterMap, itemsPure] at h
  obtain ⟨kv, hkv, hq⟩ := h
  by_cases hc : kv.1 ≠ "enabled" ∧ kv.2.1 ≠ "header"
  · simp only [if_pos hc, Option.map_some] at hq
    exact List.mem_map.mpr ⟨kv, hkv, by simpa using hq⟩
  · simp [if_neg hc] at hq

theorem dictGet_itemsPure (g : BaseDynamicPropertyGroup) (l : Dict MetaVal)
    (hl : (l.map Prod.fst).Nodup) (q : String) :
    dictGet (itemsPure g l) q =
      match dictGet l q with
      | some m => if q ≠ "enabled" ∧ m.1 ≠ "header" then
          some (m.1, g.getattr q) else none
      | none => none := by
  induction l with
  | nil => rfl
  | cons hd tl ih =>
      simp only [List.map_cons, List.nodup_cons] at hl
      obtain ⟨k0, m0⟩ := hd
      by_cases hc : k0 ≠ "enabled" ∧ m0.1 ≠ "header"
      · by_cases hq : k0 = q
        · subst hq
          simp [itemsPure, List.filterMap_cons, if_pos hc, dictGet, hc]
        · simpa [itemsPure, List.filterMap_cons, if_pos hc, dictGet, hq] using ih hl.2
      · by_cases hq : k0 = q
        · subst hq
          have hstep : itemsPure g ((k0, m0) :: tl) = itemsPure g tl := by
            simp [itemsPure, List.filterMap_cons, if_neg hc]
          have hnm : dictGet (itemsPure g tl) k0 = none := by
            refine dictGet_eq_none_of_not_mem _ _ (fun hmem => hl.1 ?_)
            exact itemsPure_keys_subset g tl k0 hmem
          rw [hstep, hnm]
          simp [dictGet, hc]
        · simpa [itemsPure, List.filterMap_cons, if_neg hc, dictGet, hq] using ih hl.2

theorem itemsPure_keys_sublist (g : BaseDynamicPropertyGroup) (l : Dict MetaVal) :
    ((itemsPure g l).map Prod.fst).Sublist (l.map Prod.fst) := by
  induction l with
  | nil => simp [itemsPure]
  | cons hd tl ih =>
      by_cases hc : hd.1 ≠ "enabled" ∧ hd.2.1 ≠ "header"
      · simpa [itemsPure, List.filterMap_cons, if_pos hc] using ih.cons₂ hd.1
      · simpa [itemsPure, List.filterMap_cons, if_neg hc] using ih.cons hd.1

/-- One public mutation of a `PropertyCollection`, used to quantify over
arbitrary call sequences. -/
inductive PCOp where
  | addFloat (key name : String) (kwargs : Args)
  | addBool (key name : String) (kwargs : Args)
  | addStr (key name : String) (kwargs : Args)
  | addVec2 (key name : String) (kwargs : Args)
  | addVec3 (key name : String) (kwargs : Args)
  | addRgb (key name : String) (kwargs : Args)
  | addRgba (key name : String) (kwargs : Args)
  | addEnum (key name : String) (kwargs : Args)
  | addFile (key name : String) (kwargs : Args)
  | addDir (key name : String) (kwargs : Args)
  | addImage (key name description : String)
  | addHeader (key text : String)
  | remove (key : String)
  | clear (enabled : Bool)

/-- Run one operation against the collection (dispatch to the source
methods). -/
def PCOp.apply (c : PropertyCollection) : PCOp → PropertyCollection
  | .addFloat key name kwargs => c.add_float key name kwargs
  | .addBool key name kwargs => c.add_bool key name kwargs
  | .addStr key name kwargs => c.add_str key name kwargs
  | .addVec2 key name kwargs => c.add_vec2 key name kwargs
  | .addVec3 key name kwargs => c.add_vec3 key name kwargs
  | .addRgb key name kwargs => c.add_rgb key name kwargs
  | .addRgba key name kwargs => c.add_rgba key name kwargs
  | .addEnum key name kwargs => c.add_enum key name kwargs
  | .addFile key name kwargs => c.add_file key name kwargs
  | .addDir key name kwargs => c.add_dir key name kwargs
  | .addImage key name description => c.add_image key name description
  | .addHeader key text => c.add_header key text
  | .remove key => c.remove key
  | .clear enabled => c.clear enabled

/-- Whether an operation addresses the reserved key directly
(`clear` never does: it re-creates the reserved field itself). -/
def PCOp.touchesEnabled : PCOp → Bool
  | .addFloat key _ _ => key = "enabled"
  | .addBool key _ _ => key = "enabled"
  | .addStr key _ _ => key = "enabled"
  | .addVec2 key _ _ => key = "enabled"
  | .addVec3 key _ _ => key = "enabled"
  | .addRgb key _ _ => key = "enabled"
  | .addRgba key _ _ => key = "enabled"
  | .addEnum key _ _ => key = "enabled"
  | .addFile key _ _ => key = "enabled"
  | .addDir key _ _ => key = "enabled"
  | .addImage key _ _ => key = "enabled"
  | .addHeader key _ => key = "enabled"
  | .remove key => key = "enabled"
  | .clear _ => false

/-- The collection holds a descriptor under the reserved key whose kind
tag is `'bool'` and whose constructor is a `BoolProperty`. -/
def hasEnabledBool (c : PropertyCollection) : Bool :=
  match dictGet c.meta "enabled", dictGet c.props "enabled" with
  | some m, some p =>
      (if m.1 = "bool" then true else false) &&
      (match p.kind with | CtorKind.BoolProperty => true | _ => false)
  | _, _ => false

theorem hasEnabledBool_clear (c : PropertyCollection) (e : Bool) :
    hasEnabledBool (c.clear e) = true := rfl

theorem hasEnabledBool_apply (c : PropertyCollection) (op : PCOp)
    (hop : op.touchesEnabled = false) (hc : hasEnabledBool c = true) :
    hasEnabledBool (PCOp.apply c op) = true := by
  cases op with
  | clear e => exact hasEnabledBool_clear c e
  | remove key =>
      simp only [PCOp.touchesEnabled, decide_eq_false_iff_not] at hop
      have hk : ¬ key = "enabled" := hop
      simp only [PCOp.apply, hasEnabledBool, PropertyCollection.remove,
        dictGet_dictDel, if_neg hk]
      exact hc
  | addImage key name description =>
      simp only [PCOp.touchesEnabled, decide_eq_false_iff_not] at hop
      have hk : ¬ key = "enabled" := hop
      simp only [PCOp.apply, hasEnabledBool, PropertyCollection.add_image,
        dictGet_dictSet, if_neg hk]
      exact hc
  | addHeader key text =>
      simp only [PCOp.touchesEnabled, decide_eq_false_iff_not] at hop
      have hk : ¬ key = "enabled" := hop
      simp only [PCOp.apply, hasEnabledBool, PropertyCollection.add_header,
        dictGet_dictSet, if_neg hk]
      exact hc
  | addFloat key name kwargs =>
      simp only [PCOp.touchesEnabled, decide_eq_false_iff_not] at hop
      have hk : ¬ key = "enabled" := hop
      simp only [PCOp.apply, hasEnabledBool, PropertyCollection.add_float,
        dictGet_dictSet, if_neg hk]
      exact hc
  | addBool key name kwargs =>
      simp only [PCOp.touchesEnabled, decide_eq_false_iff_not] at hop
      have hk : ¬ key = "enabled" := hop
      simp only [PCOp.apply, hasEnabledBool, PropertyCollection.add_bool,
        dictGet_dictSet, if_neg hk]
      exact hc
  | addStr key name kwargs =>
      simp only [PCOp.touchesEnabled, decide_eq_false_iff_not] at hop
      have hk : ¬ key = "enabled" := hop
      simp only [PCOp.apply, hasEnabledBool, PropertyCollection.add_str,
        dictGet_dictSet, if_neg hk]
      exact hc
  | addVec2 key name kwargs =>
      simp only [PCOp.touchesEnabled, decide_eq_false_iff_not] at hop
      have hk : ¬ key = "enabled" := hop
      simp only [PCOp.apply, hasEnabledBool, PropertyCollection.add_vec2,
        dictGet_dictSet, if_neg hk]
      exact hc
  | addVec3 key name kwargs =>
      simp only [PCOp.touchesEnabled, decide_eq_false_iff_not] at hop
      have hk : ¬ key = "enabled" := hop
      simp only [PCOp.apply, hasEnabledBool, PropertyCollection.add_vec3,
        dictGet_dictSet, if_neg hk]
      exact hc
  | addRgb key name kwargs =>
      simp only [PCOp.touchesEnabled, decide_eq_false_iff_not] at hop
      have hk : ¬ key = "enabled" := hop
      simp only [PCOp.apply, hasEnabledBool, PropertyCollection.add_rgb,
        dictGet_dictSet, if_neg hk]
      exact hc
  | addRgba key name kwargs =>
      simp only [PCOp.touchesEnabled, decide_eq_false_iff_not] at hop
      have hk : ¬ key = "enabled" := hop
      simp only [PCOp.apply, hasEnabledBool, PropertyCollection.add_rgba,
        dictGet_dictSet, if_neg hk]
      exact hc
  | addEnum key name kwargs =>
      simp only [PCOp.touchesEnabled, decide_eq_false_iff_not] at hop
      have hk : ¬ key = "enabled" := hop
      simp only [PCOp.apply, hasEnabledBool, PropertyCollection.add_enum,
        dictGet_dictSet, if_neg hk]
      exact hc
  | addFile key name kwargs =>
      simp only [PCOp.touchesEnabled, decide_eq_false_iff_not] at hop
      have hk : ¬ key = "enabled" := hop
      simp only [PCOp.apply, hasEnabledBool, PropertyCollection.add_file,
        dictGet_dictSet, if_neg hk]
      exact hc
  | addDir key name kwargs =>
      simp only [PCOp.touchesEnabled, decide_eq_false_iff_not] at hop
      have hk : ¬ key = "enabled" := hop
      simp only [PCOp.apply, hasEnabledBool, PropertyCollection.add_dir,
        dictGet_dictSet, if_neg hk]
      exact hc

theorem hasEnabledBool_foldl (ops : List PCOp) :
    ∀ c : PropertyCollection, hasEnabledBool c = true →
      (∀ op ∈ ops, op.touchesEnabled = false) →
      hasEnabledBool (ops.foldl PCOp.apply c) = true := by
  induction ops with
  | nil => intro c hc _; exact hc
  | cons op rest ih =>
      intro c hc hops
      rw [List.foldl_cons]
      exact ih _ (hasEnabledBool_apply c op (hops op (List.mem_cons_self _ _)) hc)
        (fun o ho => hops o (List.mem_cons_of_mem _ ho))

/-- Look up one keyword of the constructor call stored under `key`. -/
def ctorArgsGet (c : PropertyCollection) (key q : String) : Option PyVal :=
  match dictGet c.props key with
  | some p => dictGet p.args q
  | none => none

/-- Modelled from the spec: the option dictionary as section 4.1's words
describe it — a shallow merge in which the caller-supplied options take
precedence over the kind's defaults. Compared against the source's
`args = dict-union of kwargs then fixed` in the C3 counterexample. -/
def specCallerPrecedenceArgs (fixed kwargs : Args) : Args :=
  dictMerge fixed kwargs

/-- C3 counterexample: for the vec2 kind (not RGB/RGBA), a
caller-supplied `size` is overridden by the kind's fixed `size = 2`;
the merge the spec describes would have kept the caller's 5. The code
computes `args = dict-of kwargs updated by the fixed options`, so the
fixed options win for every kind, contradicting the claimed
caller-precedence. -/
theorem vec2_size_not_caller_precedence :
    ctorArgsGet ((PropertyCollection.init true).add_vec2 "k" "n"
        [("size", PyVal.int 5)]) "k" "size" = some (PyVal.int 2) ∧
    dictGet (specCallerPrecedenceArgs
        [("size", PyVal.int 2), ("name", PyVal.str "n")]
        [("size", PyVal.int 5)]) "size" = some (PyVal.int 5) ∧
    PyVal.int 2 ≠ PyVal.int 5 := by decide

/-- C3 (amended): for every kwargs-taking `add_<kind>` call, the option
dictionary passed to the field constructor is the shallow merge of the
caller-supplied options with the kind's fixed options in which the
kind's fixed options take precedence (so callers can never override
`name`, a vector kind's `size`, a path kind's `subtype`, nor — in
particular — the RGB/RGBA kinds' `subtype = 'COLOR'` and range
`[0, 1]`); every caller option that does not collide with a fixed
option is passed through unchanged. -/
theorem add_kind_fixed_options_win (c : PropertyCollection)
    (key name : String) (kwargs : Args) (q : String) :
    ctorArgsGet (c.add_float key name kwargs) key q =
      optOr (dictGet [("name", PyVal.str name)] q) (dictGet kwargs q) ∧
    ctorArgsGet (c.add_bool key name kwargs) key q =
      optOr (dictGet [("name", PyVal.str name)] q) (dictGet kwargs q) ∧
    ctorArgsGet (c.add_str key name kwargs) key q =
      optOr (dictGet [("name", PyVal.str name)] q) (dictGet kwargs q) ∧
    ctorArgsGet (c.add_enum key name kwargs) key q =
      optOr (dictGet [("name", PyVal.str name)] q) (dictGet kwargs q) ∧
    ctorArgsGet (c.add_vec2 key name kwargs) key q =
      optOr (dictGet [("size", PyVal.int 2), ("name", PyVal.str name)] q)
        (dictGet kwargs q) ∧
    ctorArgsGet (c.add_vec3 key name kwargs) key q =
      optOr (dictGet [("size", PyVal.int 3), ("name", PyVal.str name)] q)
        (dictGet kwargs q) ∧
    ctorArgsGet (c.add_rgb key name kwargs) key q =
      optOr (dictGet [("size", PyVal.int 3), ("name", PyVal.str name),
        ("subtype", PyVal.str "COLOR"), ("min", PyVal.int 0),
        ("max", PyVal.int 1)] q) (dictGet kwargs q) ∧
    ctorArgsGet (c.add_rgba key name kwargs) key q =
      optOr (dictGet [("size", PyVal.int 4), ("name", PyVal.str name),
        ("subtype", PyVal.str "COLOR"), ("min", PyVal.int 0),
        ("max", PyVal.int 1)] q) (dictGet kwargs q) ∧
    ctorArgsGet (c.add_file key name kwargs) key q =
      optOr (dictGet [("name", PyVal.str name),
        ("subtype", PyVal.str "FILE_PATH")] q) (dictGet kwargs q) ∧
    ctorArgsGet (c.add_dir key name kwargs) key q =
      optOr (dictGet [("name", PyVal.str name),
        ("subtype", PyVal.str "DIR_PATH")] q) (dictGet kwargs q) := by
  refine ⟨?_, ?_, ?_, ?_, ?_, ?_, ?_, ?_, ?_, ?_⟩ <;>
    · simp only [PropertyCollection.add_float, PropertyCollection.add_bool,
        PropertyCollection.add_str, PropertyCollection.add_enum,
        PropertyCollection.add_vec2, PropertyCollection.add_vec3,
        PropertyCollection.add_rgb, PropertyCollection.add_rgba,
        PropertyCollection.add_file, PropertyCollection.add_dir,
        ctorArgsGet, dictGet_dictSet, if_pos rfl]
      exact dictGet_dictMerge _ (by simp) _ _

/-- C4 counterexample: `remove('enabled')` deletes the reserved field —
the collection built by `PropertyCollection(enabled=True)` followed by
`remove('enabled')` no longer contains an `enabled` descriptor at all,
refuting the claim that no operation can delete it. -/
theorem remove_deletes_enabled :
    dictGet ((PropertyCollection.init true).remove "enabled").meta "enabled"
      = none ∧
    hasEnabledBool ((PropertyCollection.init true).remove "enabled") = false := by
  decide

/-- C4 (amended): for every sequence of `add_<kind>`, `add_header`,
`remove` and `clear` operations in which no `add_<kind>`, `add_header`
or `remove` call addresses the reserved key `'enabled'` directly
(`clear` is unrestricted), the collection always contains the reserved
`'enabled'` field and it is always of boolean kind. The unamended claim
fails because `remove('enabled')` deletes the field and
`add_<kind>('enabled', ...)` changes its kind — the code has no guard. -/
theorem enabled_always_bool (e : Bool) (ops : List PCOp)
    (hops : ∀ op ∈ ops, op.touchesEnabled = false) :
    hasEnabledBool (ops.foldl PCOp.apply (PropertyCollection.init e)) = true :=
  hasEnabledBool_foldl ops (PropertyCollection.init e) rfl hops

/-- Witness for C4's amended theorem at a concrete operation sequence. -/
theorem enabled_always_bool_witness :
    hasEnabledBool ([PCOp.addFloat "f" "Foo" [], PCOp.remove "f",
        PCOp.addHeader "h" "Header", PCOp.addRgb "col" "Color" [],
        PCOp.clear false].foldl PCOp.apply (PropertyCollection.init true))
      = true :=
  enabled_always_bool true
    [PCOp.addFloat "f" "Foo" [], PCOp.remove "f", PCOp.addHeader "h" "Header",
      PCOp.addRgb "col" "Color" [], PCOp.clear false] (by decide)

/-- C5 counterexample: when the key is already present, `add_<kind>`
overwrites the old descriptor and the following `remove` deletes the
key, so the collection is not equal to its state before the add (the
original `"f"` descriptor is gone). -/
theorem add_remove_existing_key_not_roundtrip :
    ((((PropertyCollection.init true).add_float "f" "n" []).add_float
        "f" "n2" []).remove "f")
      ≠ (PropertyCollection.init true).add_float "f" "n" [] := by decide

/-- C5 (amended): for every collection and every key NOT already present
in it (which in particular excludes the reserved, always-present
`'enabled'` key), `add_<kind>(key, ...)` immediately followed by
`remove(key)` returns the collection to exactly its previous state —
both the `props` and the `meta` dict — for every field kind including
headers and images. -/
theorem add_remove_fresh_key_roundtrip (c : PropertyCollection) (key : String)
    (hp : dictGet c.props key = none) (hm : dictGet c.meta key = none)
    (name description text : String) (kwargs : Args) :
    (c.add_float key name kwargs).remove key = c ∧
    (c.add_bool key name kwargs).remove key = c ∧
    (c.add_str key name kwargs).remove key = c ∧
    (c.add_vec2 key name kwargs).remove key = c ∧
    (c.add_vec3 key name kwargs).remove key = c ∧
    (c.add_rgb key name kwargs).remove key = c ∧
    (c.add_rgba key name kwargs).remove key = c ∧
    (c.add_enum key name kwargs).remove key = c ∧
    (c.add_file key name kwargs).remove key = c ∧
    (c.add_dir key name kwargs).remove key = c ∧
    (c.add_image key name description).remove key = c ∧
    (c.add_header key text).remove key = c := by
  refine ⟨?_, ?_, ?_, ?_, ?_, ?_, ?_, ?_, ?_, ?_, ?_, ?_⟩ <;>
    first
    | (simp only [PropertyCollection.add_float, PropertyCollection.add_bool,
         PropertyCollection.add_str, PropertyCollection.add_vec2,
         PropertyCollection.add_vec3, PropertyCollection.add_rgb,
         PropertyCollection.add_rgba, PropertyCollection.add_enum,
         PropertyCollection.add_file, PropertyCollection.add_dir,
         PropertyCollection.add_image, PropertyCollection.remove]
       rw [dictDel_dictSet_of_none _ _ _ hp, dictDel_dictSet_of_none _ _ _ hm])
    | (simp only [PropertyCollection.add_header, PropertyCollection.remove]
       rw [dictDel_of_get_none _ _ hp, dictDel_dictSet_of_none _ _ _ hm])

/-- Witness for C5's amended theorem at a concrete fresh key. -/
theorem add_remove_fresh_key_roundtrip_witness :
    ((PropertyCollection.init true).add_float "f" "n" []).remove "f"
      = PropertyCollection.init true :=
  (add_remove_fresh_key_roundtrip (PropertyCollection.init true) "f"
    (by decide) (by decide) "n" "d" "t" []).1

/-- C6: `clear(enabled_default)` discards every descriptor and
constructor regardless of the prior state and leaves exactly the one
reserved boolean `'enabled'` field with the given default (plus the
`HIDDEN` option the source always passes); construction
(`__init__`) produces exactly the same state. -/
theorem clear_exactly_enabled (c : PropertyCollection) (e : Bool) :
    (c.clear e).props = [("enabled",
      { kind := CtorKind.BoolProperty,
        args := [("default", PyVal.bool e), ("options", PyVal.strset ["HIDDEN"]),
                 ("name", PyVal.str "enabled")] })] ∧
    (c.clear e).meta = [("enabled", ("bool", "enabled", PyVal.str ""))] ∧
    c.clear e = PropertyCollection.init e :=
  ⟨rfl, rfl, rfl⟩

/-- C7: `items()` yields exactly one entry per field whose key is not
`'enabled'` and whose kind tag is not `'header'`, pairing the key with
the kind tag and the field's current value; `'enabled'` and header
entries never appear. Stated as: the result's keys are unique, and a
key maps to `(tag, value)` exactly when `meta` holds it with a
non-header tag and the key is not `'enabled'`. -/
theorem items_spec (g : BaseDynamicPropertyGroup)
    (hg : (g.meta.map Prod.fst).Nodup) :
    (g.items.map Prod.fst).Nodup ∧
    (∀ q, dictGet g.items q =
      match dictGet g.meta q with
      | some m => if q ≠ "enabled" ∧ m.1 ≠ "header" then
          some (m.1, g.getattr q) else none
      | none => none) := by
  constructor
  · rw [items_eq_itemsPure g hg]
    exact (itemsPure_keys_sublist g g.meta).nodup hg
  · intro q
    rw [items_eq_itemsPure g hg]
    exact dictGet_itemsPure g g.meta hg q

/-- Witness for C7 at the spec's scenario: a collection holding a float
field `"f"` with current value 1.0 and a header `"h"`; `items()` holds
only `"f"` with kind tag `"float"` and value 1.0. -/
theorem items_spec_witness :
    (BaseDynamicPropertyGroup.items
      { meta := (((PropertyCollection.init true).add_float "f" "f" []).add_header
          "h" "Header").meta,
        getattr := fun k => if k = "f" then PyVal.int 1 else PyVal.bool true })
      = [("f", ("float", PyVal.int 1))] ∧
    dictGet (BaseDynamicPropertyGroup.items
      { meta := (((PropertyCollection.init true).add_float "f" "f" []).add_header
          "h" "Header").meta,
        getattr := fun k => if k = "f" then PyVal.int 1 else PyVal.bool true }) "f"
      = some ("float", PyVal.int 1) :=
  ⟨by decide,
    Eq.trans ((items_spec
      { meta := (((PropertyCollection.init true).add_float "f" "f" []).add_header
          "h" "Header").meta,
        getattr := fun k => if k = "f" then PyVal.int 1 else PyVal.bool true }
      (by decide)).2 "f") (by decide)⟩

/-- One class installed with the host via `bpy.utils.register_class`:
a fresh identity, the `get_key(bpy_type, name)` string the class was
synthesized for, and whether it is the panel class (`True`) or the
property-group class (`False`). -/
structure HostClass where
  id : Nat
  key : String
  isPanel : Bool
deriving DecidableEq

/-- Per-instance state of one `DynamicProperties` registrar: the
`__name__` of its `bpy_type`, its group `name`, `title` and
`panel_parent_id`, its inherited `PropertyCollection` contents, and the
`property_class` / `panel_class` handles. A handle is `none` both when
the attribute has never been assigned (fresh instance — reading it then
raises an `AttributeError` that `unregister` swallows) and after
`unregister` sets it to Python `None` (passing `None` to
`bpy.utils.unregister_class` likewise raises and is swallowed); the two
situations are indistinguishable everywhere the source reads the
attribute. -/
structure RegistrarState where
  typeName : String
  gname : String
  title : String
  panel_parent_id : String
  coll : PropertyCollection
  property_class : Option Nat
  panel_class : Option Nat
deriving DecidableEq

/-- `get_key(bpy_type, name)` from the source: plain concatenation. -/
def regKey (r : RegistrarState) : String :=
  r.typeName ++ r.gname

/-- The four recognized target types of the `register` dispatch. -/
def validTypes : List String :=
  ["Light", "Material", "Object", "RenderEngine"]

/-- Whole-process state: all registrar instances (identified by their
index), the host's installed classes in installation order, the
class-level `registered_properties` table mapping `get_key` strings to
the registrar instance stored there, and a counter supplying fresh
class identities for the `type(...)` calls. -/
structure Sys where
  regs : List RegistrarState
  host : List HostClass
  table : Dict Nat
  counter : Nat
deriving DecidableEq

/-- `bpy.utils.unregister_class(c)` under a bare `except: pass`: with
`None` or a missing attribute nothing happens; with a class handle the
matching installed class is removed (absence tolerated). -/
def hostRemove (host : List HostClass) : Option Nat → List HostClass
  | some c => host.filter (fun h => h.id ≠ c)
  | none => host

/-- `DynamicProperties.unregister`: best-effort removal of both classes
from the host, deletion of the table entry under this registrar's key
(whosever entry that is — the source deletes unconditionally), and
resetting both handles to `None`. Never raises: every internal failure
is swallowed by the source's `try/except` blocks. An out-of-range index
(no such instance) is a no-op of the model, not a source behavior. -/
def unregisterStep (s : Sys) (i : Nat) : Sys :=
  match s.regs[i]? with
  | none => s
  | some r =>
      { s with
        host := hostRemove (hostRemove s.host r.property_class) r.panel_class,
        table := dictDel s.table (regKey r),
        regs := s.regs.set i
          { r with property_class := none, panel_class := none } }

/-- `DynamicProperties.register`: synthesize the two classes, dispatch
on the target type's `__name__` (raising `TypeError` for an
unrecognized type BEFORE any state is touched), then `self.unregister()`,
then install the fresh pair with the host, store the handles and record
this registrar in the table. The class objects carry the collection
snapshot; only their identity and key matter to the registration
claims, so they are modelled as fresh ids tagged with the key. -/
def registerStep (s : Sys) (i : Nat) : Except String Sys :=
  match s.regs[i]? with
  | none => .ok s
  | some r =>
      if r.typeName ∈ validTypes then
        let s1 := unregisterStep s i
        let pc := s1.counter
        let pan := s1.counter + 1
        .ok { regs := s1.regs.set i
                { r with property_class := some pc, panel_class := some pan },
              host := s1.host ++
                [{ id := pc, key := regKey r, isPanel := false },
                 { id := pan, key := regKey r, isPanel := true }],
              table := dictSet s1.table (regKey r) i,
              counter := s1.counter + 2 }
      else
        .error ("DynamicProperties cannot be associated to type " ++ r.typeName)

/-- `DynamicProperties.find(bpy_type, name)`:
`registered_properties.get(get_key(bpy_type, name))`. -/
def Sys.find (s : Sys) (typeName gname : String) : Option Nat :=
  dictGet s.table (typeName ++ gname)

/-- One call of the public registration API, for quantifying over call
sequences. A `register` call that raises leaves the state unchanged
(the exception propagates before any mutation). -/
inductive Act where
  | register (i : Nat)
  | unregister (i : Nat)

/-- Execute one call. -/
def Sys.step (s : Sys) : Act → Sys
  | .register i =>
      match registerStep s i with
      | .ok s' => s'
      | .error _ => s
  | .unregister i => unregisterStep s i

/-- Execute a call sequence. -/
def Sys.run (s : Sys) (acts : List Act) : Sys :=
  acts.foldl Sys.step s

/-- The process state after constructing one registrar per
`(type-name, group-name)` pair and before any `register` call:
construction touches no global state. -/
def initSys (data : List (String × String)) : Sys :=
  { regs := data.map (fun p =>
      { typeName := p.1, gname := p.2, title := "", panel_parent_id := "",
        coll := PropertyCollection.init true,
        property_class := none, panel_class := none }),
    host := [], table := [], counter := 0 }

/-- Number of property-group classes currently installed with the host
for a given `get_key` string. -/
def recordsFor (s : Sys) (key : String) : Nat :=
  (s.host.filter (fun h => decide (h.key = key ∧ h.isPanel = false))).length

/-- Number of panel classes currently installed with the host for a
given `get_key` string. -/
def panelsFor (s : Sys) (key : String) : Nat :=
  (s.host.filter (fun h => decide (h.key = key ∧ h.isPanel = true))).length

theorem set_getElem?_self {α : Type} (l : List α) (i : Nat) (x : α)
    (h : l[i]? = some x) : l.set i x = l := by
  induction l generalizing i with
  | nil => simp at h
  | cons a t ih =>
      cases i with
      | zero =>
          rw [List.getElem?_cons_zero, Option.some_inj] at h
          simp [List.set, h]
      | succ n =>
          rw [List.getElem?_cons_succ] at h
          simp [List.set, ih n h]

theorem nodup_getElem?_inj {α : Type} (l : List α) (hl : l.Nodup) (i j : Nat)
    (x : α) (hi : l[i]? = some x) (hj : l[j]? = some x) : i = j := by
  induction l generalizing i j with
  | nil => simp at hi
  | cons a t ih =>
      rw [List.nodup_cons] at hl
      cases i with
      | zero =>
          cases j with
          | zero => rfl
          | succ m =>
              rw [List.getElem?_cons_zero, Option.some_inj] at hi
              rw [List.getElem?_cons_succ] at hj
              have hxm : x ∈ t := List.getElem?_mem hj
              rw [← hi] at hxm
              exact absurd hxm hl.1
      | succ n =>
          cases j with
          | zero =>
              rw [List.getElem?_cons_zero, Option.some_inj] at hj
              rw [List.getElem?_cons_succ] at hi
              have hxm : x ∈ t := List.getElem?_mem hi
              rw [← hj] at hxm
              exact absurd hxm hl.1
          | succ m =>
              rw [List.getElem?_cons_succ] at hi hj
              exact congrArg Nat.succ (ih hl.2 n m hi hj)

/-- The immutable identity of a registrar: its type name and group name
(never modified by `register`/`unregister`, which only update handles). -/
def regSig (r : RegistrarState) : String × String :=
  (r.typeName, r.gname)

theorem hostRemove_sublist (host : List HostClass) (o : Option Nat) :
    (hostRemove host o).Sublist host := by
  cases o with
  | none => exact List.Sublist.refl host
  | some c => exact List.filter_sublist host

theorem sig_unregister (s : Sys) (i : Nat) :
    (unregisterStep s i).regs.map regSig = s.regs.map regSig := by
  cases hget : s.regs[i]? with
  | none => simp [unregisterStep, hget]
  | some r =>
      simp only [unregisterStep, hget]
      rw [List.map_set]
      exact set_getElem?_self _ _ _
        (by rw [List.getElem?_map, hget]; rfl)

theorem sig_register_ok (s : Sys) (i : Nat) (s' : Sys)
    (hok : registerStep s i = .ok s') :
    s'.regs.map regSig = s.regs.map regSig := by
  cases hget : s.regs[i]? with
  | none =>
      simp only [registerStep, hget, Except.ok.injEq] at hok
      rw [← hok]
  | some r =>
      by_cases hv : r.typeName ∈ validTypes
      · simp only [registerStep, hget, if_pos hv, Except.ok.injEq] at hok
        rw [← hok]
        rw [List.map_set, sig_unregister s i]
        exact set_getElem?_self _ _ _ (by rw [List.getElem?_map, hget]; rfl)
      · simp [registerStep, hget, if_neg hv] at hok

theorem sig_step (s : Sys) (a : Act) :
    (s.step a).regs.map regSig = s.regs.map regSig := by
  cases a with
  | register i =>
      cases hreg : registerStep s i with
      | ok s' =>
          simp only [Sys.step, hreg]
          exact sig_register_ok s i s' hreg
      | error e => simp [Sys.step, hreg]
  | unregister i => exact sig_unregister s i

theorem sig_run (s : Sys) (acts : List Act) :
    (s.run acts).regs.map regSig = s.regs.map regSig := by
  induction acts generalizing s with
  | nil => rfl
  | cons a rest ih =>
      calc (s.run (a :: rest)).regs.map regSig
          = ((s.step a).run rest).regs.map regSig := rfl
        _ = (s.step a).regs.map regSig := ih (s.step a)
        _ = s.regs.map regSig := sig_step s a

/-- The handle of a registrar for a record class (`False`) or a panel
class (`True`). -/
def handleOf (r : RegistrarState) (p : Bool) : Option Nat :=
  if p then r.panel_class else r.property_class

/-- Some registrar currently holds this installed class as one of its
handles, under the matching key. -/
def ownedBy (s : Sys) (h : HostClass) : Prop :=
  ∃ (i : Nat) (r : RegistrarState), s.regs[i]? = some r ∧ regKey r = h.key ∧
    handleOf r h.isPanel = some h.id

/-- Reachability invariant of the registration system, when every
registrar instance owns a distinct `get_key` string: registrar keys are
pairwise distinct, installed class identities are below the freshness
counter and pairwise distinct, and every installed class is a current
handle of the registrar whose key it carries. -/
def SysInv (s : Sys) : Prop :=
  (s.regs.map regKey).Nodup ∧
  (∀ h ∈ s.host, h.id < s.counter) ∧
  (s.host.map HostClass.id).Nodup ∧
  (∀ h ∈ s.host, ownedBy s h)

theorem inv_unregister (s : Sys) (i : Nat) (hs : SysInv s) :
    SysInv (unregisterStep s i) := by
  obtain ⟨hkeys, hlt, hids, hown⟩ := hs
  cases hget : s.regs[i]? with
  | none => exact ⟨by simpa [unregisterStep, hget] using hkeys,
      by simpa [unregisterStep, hget] using hlt,
      by simpa [unregisterStep, hget] using hids,
      by simpa [unregisterStep, hget, ownedBy] using hown⟩
  | some r =>
      have hs1 : unregisterStep s i =
          { s with
            host := hostRemove (hostRemove s.host r.property_class) r.panel_class,
            table := dictDel s.table (regKey r),
            regs := s.regs.set i
              { r with property_class := none, panel_class := none } } := by
        simp [unregisterStep, hget]
      rw [hs1]
      have hsub : (hostRemove (hostRemove s.host r.property_class)
          r.panel_class).Sublist s.host :=
        (hostRemove_sublist _ _).trans (hostRemove_sublist _ _)
      refine ⟨?_, ?_, ?_, ?_⟩
      · rw [List.map_set, set_getElem?_self _ _ _ (by rw [List.getElem?_map, hget]; rfl)]
        exact hkeys
      · intro h hmem
        exact hlt h (hsub.subset hmem)
      · exact ((hsub.map HostClass.id).nodup) hids
      · intro h hmem
        obtain ⟨j, rj, hj, hkj, hhj⟩ := hown h (hsub.subset hmem)
        have hji : j ≠ i := by
          intro he
          subst he
          rw [hget, Option.some_inj] at hj
          subst hj
          cases hp : h.isPanel with
          | true =>
              simp only [handleOf, hp, if_pos] at hhj
              have hh : h ∈ hostRemove (hostRemove s.host r.property_class)
                  r.panel_class := hmem
              rw [hhj] at hh
              simp only [hostRemove, List.mem_filter] at hh
              simpa using hh.2
          | false =>
              simp only [handleOf, hp, Bool.false_eq_true, if_false] at hhj
              have hh : h ∈ hostRemove s.host r.property_class :=
                (hostRemove_sublist _ r.panel_class).subset hmem
              rw [hhj] at hh
              simp only [hostRemove, List.mem_filter] at hh
              simpa using hh.2
        exact ⟨j, rj, by rw [List.getElem?_set_ne (fun he => hji he.symm)]; exact hj,
          hkj, hhj⟩

theorem inv_register_ok (s : Sys) (i : Nat) (s' : Sys) (hs : SysInv s)
    (hok : registerStep s i = .ok s') : SysInv s' := by
  cases hget : s.regs[i]? with
  | none =>
      simp only [registerStep, hget, Except.ok.injEq] at hok
      rw [← hok]
      exact hs
  | some r =>
      by_cases hv : r.typeName ∈ validTypes
      · obtain ⟨hilt, -⟩ := List.getElem?_eq_some.mp hget
        simp only [registerStep, hget, if_pos hv, Except.ok.injEq] at hok
        have hu : unregisterStep s i =
            { regs := s.regs.set i
                { r with property_class := none, panel_class := none },
              host := hostRemove (hostRemove s.host r.property_class) r.panel_class,
              table := dictDel s.table (regKey r),
              counter := s.counter } := by
          simp [unregisterStep, hget]
        have hs1 : SysInv (unregisterStep s i) := inv_unregister s i hs
        rw [hu] at hok hs1
        dsimp only at hok
        obtain ⟨hkeys1, hcnt1, hids1, hown1⟩ := hs1
        dsimp only at hkeys1 hcnt1 hids1 hown1
        obtain ⟨hkeys, hlt, hids, hown⟩ := hs
        rw [← hok]
        unfold SysInv
        dsimp only
        have hsub : (hostRemove (hostRemove s.host r.property_class)
            r.panel_class).Sublist s.host :=
          (hostRemove_sublist _ _).trans (hostRemove_sublist _ _)
        refine ⟨?_, ?_, ?_, ?_⟩
        · rw [List.set_set, List.map_set, set_getElem?_self _ _ _
            (by rw [List.getElem?_map, hget]; rfl)]
          exact hkeys
        · intro h hmem
          rcases List.mem_append.mp hmem with hm | hm
          · have := hlt h (hsub.subset hm)
            omega
          · rcases List.mem_cons.mp hm with he | hm2
            · rw [he]; dsimp only; omega
            · rcases List.mem_cons.mp hm2 with he | hm3
              · rw [he]; dsimp only; omega
              · exact absurd hm3 (List.not_mem_nil h)
        · rw [List.map_append]
          refine List.Nodup.append hids1 (by simp) ?_
          intro a ha hb
          obtain ⟨h, hh, hhe⟩ := List.mem_map.mp ha
          have hha : a < s.counter := hhe ▸ hlt h (hsub.subset hh)
          simp only [List.map_cons, List.map_nil, List.mem_cons,
            List.mem_singleton] at hb
          rcases hb with hb | hb
          · have hb' : a = s.counter := hb
            omega
          · have hb' : a = s.counter + 1 ∨ a ∈ ([] : List Nat) := hb
            rcases hb' with hb' | hb'
            · omega
            · exact absurd hb' (List.not_mem_nil a)
        · intro h hmem
          rcases List.mem_append.mp hmem with hm | hm
          · obtain ⟨j, rj, hj, hkj, hhj⟩ := hown1 h hm
            dsimp only at hj
            have hji : j ≠ i := by
              intro he
              subst he
              rw [List.getElem?_set_self hilt, Option.some_inj] at hj
              cases hp : h.isPanel with
              | true => rw [← hj, hp] at hhj; simp [handleOf] at hhj
              | false => rw [← hj, hp] at hhj; simp [handleOf] at hhj
            refine ⟨j, rj, ?_, hkj, hhj⟩
            rw [List.getElem?_set_ne (fun he => hji he.symm)]
            exact hj
          · rcases List.mem_cons.mp hm with he | hm2
            · refine ⟨i, { r with
                property_class := some s.counter
                panel_class := some (s.counter + 1) }, ?_, ?_, ?_⟩
              · exact List.getElem?_set_self (by rw [List.length_set]; exact hilt)
              · rw [he]; rfl
              · rw [he]; rfl
            · rcases List.mem_cons.mp hm2 with he | hm3
              · refine ⟨i, { r with
                  property_class := some s.counter
                  panel_class := some (s.counter + 1) }, ?_, ?_, ?_⟩
                · exact List.getElem?_set_self (by rw [List.length_set]; exact hilt)
                · rw [he]; rfl
                · rw [he]; rfl
              · exact absurd hm3 (List.not_mem_nil h)
      · simp [registerStep, hget, if_neg hv] at hok

theorem inv_step (s : Sys) (a : Act) (hs : SysInv s) : SysInv (s.step a) := by
  cases a with
  | register i =>
      cases hreg : registerStep s i with
      | ok s' =>
          simp only [Sys.step, hreg]
          exact inv_register_ok s i s' hs hreg
      | error e =>
          simpa [Sys.step, hreg] using hs
  | unregister i => exact inv_unregister s i hs

theorem inv_run (s : Sys) (acts : List Act) (hs : SysInv s) :
    SysInv (s.run acts) := by
  induction acts generalizing s with
  | nil => exact hs
  | cons a rest ih => exact ih (s.step a) (inv_step s a hs)

theorem inv_init (data : List (String × String))
    (hnd : (data.map (fun p => p.1 ++ p.2)).Nodup) : SysInv (initSys data) := by
  refine ⟨?_, ?_, ?_, ?_⟩
  · have : (initSys data).regs.map regKey = data.map (fun p => p.1 ++ p.2) := by
      rw [show (initSys data).regs = data.map (fun p =>
        ({ typeName := p.1, gname := p.2, title := "", panel_parent_id := "",
           coll := PropertyCollection.init true, property_class := none,
           panel_class := none } : RegistrarState)) from rfl, List.map_map]
      rfl
    rw [this]
    exact hnd
  · intro h hmem
    exact absurd hmem (List.not_mem_nil h)
  · simp [initSys]
  · intro h hmem
    exact absurd hmem (List.not_mem_nil h)

theorem host_count_le_one (s : Sys) (hs : SysInv s) (key : String) (b : Bool) :
    (s.host.filter (fun h => decide (h.key = key ∧ h.isPanel = b))).length ≤ 1 := by
  obtain ⟨hkeys, hlt, hids, hown⟩ := hs
  have hnodup : (s.host.filter
      (fun h => decide (h.key = key ∧ h.isPanel = b))).Nodup :=
    (List.filter_sublist s.host).nodup (hids.of_map HostClass.id)
  cases hfl : s.host.filter (fun h => decide (h.key = key ∧ h.isPanel = b)) with
  | nil => simp
  | cons x t =>
      cases t with
      | nil => simp
      | cons y t2 =>
          exfalso
          have hx : x ∈ s.host ∧ x.key = key ∧ x.isPanel = b := by
            have := List.mem_filter.mp (hfl ▸ List.mem_cons_self x (y :: t2))
            exact ⟨this.1, of_decide_eq_true this.2⟩
          have hy : y ∈ s.host ∧ y.key = key ∧ y.isPanel = b := by
            have := List.mem_filter.mp
              (hfl ▸ List.mem_cons_of_mem x (List.mem_cons_self y t2))
            exact ⟨this.1, of_decide_eq_true this.2⟩
          have hxy : x ≠ y := by
            rw [hfl, List.nodup_cons] at hnodup
            intro he
            exact hnodup.1 (he ▸ List.mem_cons_self y t2)
          obtain ⟨i1, r1, hi1, hk1, hh1⟩ := hown x hx.1
          obtain ⟨i2, r2, hi2, hk2, hh2⟩ := hown y hy.1
          have hkk : regKey r1 = regKey r2 := by
            rw [hk1, hk2, hx.2.1, hy.2.1]
          have hi12 : i1 = i2 := by
            refine nodup_getElem?_inj (s.regs.map regKey) hkeys i1 i2 (regKey r1)
              ?_ ?_
            · rw [List.getElem?_map, hi1]; rfl
            · rw [List.getElem?_map, hi2, hkk]; rfl
          rw [hi12, hi2, Option.some_inj] at hi1
          subst hi1
          rw [hx.2.2] at hh1
          rw [hy.2.2] at hh2
          have hid : x.id = y.id := by
            rw [hh1] at hh2
            exact Option.some_inj.mp hh2
          exact hxy (List.inj_on_of_nodup_map hids hx.1 hy.1 hid)

theorem records_le_one (s : Sys) (hs : SysInv s) (key : String) :
    recordsFor s key ≤ 1 ∧ panelsFor s key ≤ 1 :=
  ⟨host_count_le_one s hs key false, host_count_le_one s hs key true⟩

theorem unregister_clears_key (s : Sys) (i : Nat) (r : RegistrarState)
    (hs : SysInv s) (hget : s.regs[i]? = some r) :
    ∀ h ∈ (unregisterStep s i).host, h.key ≠ regKey r := by
  obtain ⟨hilt, -⟩ := List.getElem?_eq_some.mp hget
  have hs1 : SysInv (unregisterStep s i) := inv_unregister s i hs
  have hu : unregisterStep s i =
      { regs := s.regs.set i
          { r with property_class := none, panel_class := none },
        host := hostRemove (hostRemove s.host r.property_class) r.panel_class,
        table := dictDel s.table (regKey r),
        counter := s.counter } := by
    simp [unregisterStep, hget]
  rw [hu] at hs1 ⊢
  obtain ⟨hkeys1, -, -, hown1⟩ := hs1
  dsimp only at hkeys1 hown1 ⊢
  intro h hm hke
  obtain ⟨j, rj, hj, hkj, hhj⟩ := hown1 h hm
  dsimp only at hj
  have hji : j = i := by
    refine nodup_getElem?_inj ((s.regs.set i
      { r with property_class := none, panel_class := none }).map regKey)
      hkeys1 j i (regKey r) ?_ ?_
    · rw [List.getElem?_map, hj]
      exact congrArg some (hkj.trans hke)
    · rw [List.getElem?_map, List.getElem?_set_self hilt]
      rfl
  subst hji
  rw [List.getElem?_set_self hilt, Option.some_inj] at hj
  rw [← hj] at hhj
  cases hp : h.isPanel with
  | true => rw [hp] at hhj; simp [handleOf] at hhj
  | false => rw [hp] at hhj; simp [handleOf] at hhj

theorem register_ok_count (s : Sys) (i : Nat) (r : RegistrarState) (s' : Sys)
    (hs : SysInv s) (hget : s.regs[i]? = some r)
    (hok : registerStep s i = .ok s') :
    recordsFor s' (regKey r) = 1 ∧ panelsFor s' (regKey r) = 1 := by
  by_cases hv : r.typeName ∈ validTypes
  · simp only [registerStep, hget, if_pos hv, Except.ok.injEq] at hok
    have hclear : ∀ h ∈ (unregisterStep s i).host, h.key ≠ regKey r :=
      unregister_clears_key s i r hs hget
    have h1 : ∀ b : Bool, (unregisterStep s i).host.filter
        (fun h => decide (h.key = regKey r ∧ h.isPanel = b)) = [] := by
      intro b
      rw [List.filter_eq_nil]
      intro h hm
      simp only [decide_eq_true_eq, not_and]
      intro hk
      exact absurd hk (hclear h hm)
    rw [← hok]
    unfold recordsFor panelsFor
    dsimp only
    constructor
    · rw [List.filter_append, h1 false, List.nil_append]
      simp
    · rw [List.filter_append, h1 true, List.nil_append]
      simp
  · simp [registerStep, hget, if_neg hv] at hok

theorem initSys_sig (data : List (String × String)) :
    (initSys data).regs.map regSig = data := by
  rw [show (initSys data).regs = data.map (fun p =>
    ({ typeName := p.1, gname := p.2, title := "", panel_parent_id := "",
       coll := PropertyCollection.init true, property_class := none,
       panel_class := none } : RegistrarState)) from rfl, List.map_map]
  exact List.map_id data

theorem run_sig_at (data : List (String × String)) (s0 : Sys)
    (hsig : s0.regs.map regSig = data) (i : Nat) (t n : String)
    (hdata : data[i]? = some (t, n)) :
    ∃ r0, s0.regs[i]? = some r0 ∧ r0.typeName = t ∧ r0.gname = n := by
  have h1 : (s0.regs.map regSig)[i]? = some (t, n) := by rw [hsig]; exact hdata
  rw [List.getElem?_map] at h1
  cases hr : s0.regs[i]? with
  | none => rw [hr] at h1; simp at h1
  | some r0 =>
      rw [hr] at h1
      have h2 : regSig r0 = (t, n) := Option.some_inj.mp h1
      exact ⟨r0, rfl, congrArg Prod.fst h2, congrArg Prod.snd h2⟩

/-- C1 counterexample: two registrar instances constructed for the SAME
(target type, group name) pair, each calling `register()` once. The
second `register()` only unregisters the second registrar's own
(never-installed) classes — `self.unregister()` at line 495 — so the
first registrar's record/panel pair stays installed with the host and
two active record classes exist for the key `'Lightg'`, refuting the
claimed universal invariant. -/
theorem two_registrars_same_key_cex :
    ¬ (recordsFor ((initSys [("Light", "g"), ("Light", "g")]).run
        [Act.register 0, Act.register 1]) "Lightg" ≤ 1) ∧
    recordsFor ((initSys [("Light", "g"), ("Light", "g")]).run
        [Act.register 0, Act.register 1]) "Lightg" = 2 := by decide

/-- C1 (amended): for every family of registrars whose `get_key`
strings are pairwise distinct (the constructor documents `name` as
unique per group) and every sequence of `register()`/`unregister()`
calls, at any time there is at most one installed record class and at
most one installed panel class per (target host type, group name) key;
and `register()` — which first unregisters the registrar's own previous
pair — invoked twice in a row on the same registrar leaves exactly one
active installed record/panel pair for that key. Without the
distinct-key restriction the code violates the claim (see the
counterexample): `register()` unregisters this registrar's own previous
pair, not whatever pair is currently installed for the key. -/
theorem register_at_most_one_installation (data : List (String × String))
    (acts : List Act) (hnd : (data.map (fun p => p.1 ++ p.2)).Nodup) :
    (∀ key, recordsFor ((initSys data).run acts) key ≤ 1 ∧
      panelsFor ((initSys data).run acts) key ≤ 1) ∧
    (∀ i t n, data[i]? = some (t, n) → t ∈ validTypes →
      recordsFor ((initSys data).run
        (acts ++ [Act.register i, Act.register i])) (t ++ n) = 1 ∧
      panelsFor ((initSys data).run
        (acts ++ [Act.register i, Act.register i])) (t ++ n) = 1) := by
  have hinv0 : SysInv ((initSys data).run acts) :=
    inv_run (initSys data) acts (inv_init data hnd)
  constructor
  · intro key
    exact records_le_one _ hinv0 key
  · intro i t n hdata hvt
    have hsig0 : ((initSys data).run acts).regs.map regSig = data :=
      (sig_run (initSys data) acts).trans (initSys_sig data)
    obtain ⟨r0, hr0, ht0, hn0⟩ := run_sig_at data _ hsig0 i t n hdata
    cases hstep1 : registerStep ((initSys data).run acts) i with
    | error e =>
        simp only [registerStep, hr0] at hstep1
        rw [if_pos (show r0.typeName ∈ validTypes from by rw [ht0]; exact hvt)]
          at hstep1
        exact Except.noConfusion hstep1
    | ok s1 =>
        have hinv1 : SysInv s1 := inv_register_ok _ i s1 hinv0 hstep1
        have hsig1 : s1.regs.map regSig = data :=
          (sig_register_ok _ i s1 hstep1).trans hsig0
        obtain ⟨r1, hr1, ht1, hn1⟩ := run_sig_at data s1 hsig1 i t n hdata
        cases hstep2 : registerStep s1 i with
        | error e =>
            simp only [registerStep, hr1] at hstep2
            rw [if_pos (show r1.typeName ∈ validTypes from by rw [ht1]; exact hvt)]
              at hstep2
            exact Except.noConfusion hstep2
        | ok s2 =>
            have hcount := register_ok_count s1 i r1 s2 hinv1 hr1 hstep2
            have hkey : regKey r1 = t ++ n := by
              rw [regKey, ht1, hn1]
            have hfold : (initSys data).run
                (acts ++ [Act.register i, Act.register i]) = s2 := by
              rw [Sys.run, List.foldl_append]
              show (((initSys data).run acts).step (Act.register i)).step
                (Act.register i) = s2
              rw [show ((initSys data).run acts).step (Act.register i) = s1 from
                by simp [Sys.step, hstep1]]
              simp [Sys.step, hstep2]
            rw [hfold, ← hkey]
            exact hcount

/-- Witness for C1's amended theorem: one registrar on `bpy.types.Light`
named `'g'` registered twice from the initial state leaves exactly one
installed record class for `'Lightg'`. -/
theorem register_at_most_one_installation_witness :
    recordsFor ((initSys [("Light", "g")]).run
      [Act.register 0, Act.register 0]) "Lightg" = 1 :=
  ((register_at_most_one_installation [("Light", "g")] [] (by decide)).2
    0 "Light" "g" (by decide) (by decide)).1

/-- C2: when the registrar's target type is not Light, Material, Object
or RenderEngine, `register()` raises `TypeError` immediately — the
dispatch's `raise` sits before `self.unregister()` and before any host
or table mutation — and the whole system state (global table, installed
classes, every registrar's handles) is exactly as before the call. -/
theorem register_bad_type_error (s : Sys) (i : Nat) (r : RegistrarState)
    (hget : s.regs[i]? = some r) (hbad : r.typeName ∉ validTypes) :
    registerStep s i = .error
      ("DynamicProperties cannot be associated to type " ++ r.typeName) ∧
    s.step (Act.register i) = s := by
  have h1 : registerStep s i = .error
      ("DynamicProperties cannot be associated to type " ++ r.typeName) := by
    simp only [registerStep, hget]
    rw [if_neg hbad]
  exact ⟨h1, by simp [Sys.step, h1]⟩

/-- Witness for C2 at a concrete registrar on the unrecognized type
`Camera`. -/
theorem register_bad_type_error_witness :
    registerStep (initSys [("Camera", "g")]) 0 =
      .error "DynamicProperties cannot be associated to type Camera" ∧
    (initSys [("Camera", "g")]).step (Act.register 0) =
      initSys [("Camera", "g")] :=
  register_bad_type_error (initSys [("Camera", "g")]) 0
    { typeName := "Camera", gname := "g", title := "", panel_parent_id := "",
      coll := PropertyCollection.init true, property_class := none,
      panel_class := none } (by decide) (by decide)

/-- C8: after a successful `register()`, `find(bpy_type, name)` returns
exactly the registrar instance that registered (the table stores
`self` under `get_key`); after that registrar's `unregister()`, `find`
returns the absence signal `None` instead of failing. -/
theorem find_register_roundtrip (s : Sys) (i : Nat) (r : RegistrarState)
    (s' : Sys) (hget : s.regs[i]? = some r)
    (hok : registerStep s i = .ok s') :
    s'.find r.typeName r.gname = some i ∧
    (unregisterStep s' i).find r.typeName r.gname = none := by
  by_cases hv : r.typeName ∈ validTypes
  · have hilt := (List.getElem?_eq_some.mp hget).1
    simp only [registerStep, hget, if_pos hv, Except.ok.injEq] at hok
    have hlen1 : (unregisterStep s i).regs.length = s.regs.length := by
      cases hg2 : s.regs[i]? with
      | none => simp [unregisterStep, hg2]
      | some r2 => simp [unregisterStep, hg2]
    have hr2 : s'.regs[i]? = some
        { r with
          property_class := some (unregisterStep s i).counter
          panel_class := some ((unregisterStep s i).counter + 1) } := by
      rw [← hok]
      dsimp only
      exact List.getElem?_set_self (by rw [hlen1]; exact hilt)
    constructor
    · rw [← hok]
      show dictGet (dictSet (unregisterStep s i).table (regKey r) i)
        (r.typeName ++ r.gname) = some i
      rw [dictGet_dictSet, if_pos (show regKey r = r.typeName ++ r.gname from rfl)]
    · have hu2 : unregisterStep s' i =
          { regs := s'.regs.set i
              { r with property_class := none, panel_class := none }
            host := hostRemove (hostRemove s'.host
              (some (unregisterStep s i).counter))
              (some ((unregisterStep s i).counter + 1))
            table := dictDel s'.table (r.typeName ++ r.gname)
            counter := s'.counter } := by
        simp [unregisterStep, hr2]
        rfl
      rw [hu2]
      show dictGet (dictDel s'.table (r.typeName ++ r.gname))
        (r.typeName ++ r.gname) = none
      rw [dictGet_dictDel, if_pos rfl]
  · simp [registerStep, hget, if_neg hv] at hok

/-- The system state after `initSys [("Light", "g")]` performs one
successful `register()`, written out for the C8 witness. -/
def c8Registrar : RegistrarState :=
  { typeName := "Light"
    gname := "g"
    title := ""
    panel_parent_id := ""
    coll := PropertyCollection.init true
    property_class := some 0
    panel_class := some 1 }

def c8After : Sys :=
  { regs := [c8Registrar]
    host := [HostClass.mk 0 "Lightg" false, HostClass.mk 1 "Lightg" true]
    table := [("Lightg", 0)]
    counter := 2 }

/-- Witness for C8 at a concrete Light registrar named `'g'`. -/
theorem find_register_roundtrip_witness :
    Sys.find c8After "Light" "g" = some 0 ∧
    Sys.find (unregisterStep c8After 0) "Light" "g" = none :=
  find_register_roundtrip (initSys [("Light", "g")]) 0
    { typeName := "Light", gname := "g", title := "", panel_parent_id := "",
      coll := PropertyCollection.init true, property_class := none,
      panel_class := none } c8After (by decide) (by rfl)

/-- C9: `unregister()` never raises (every internal failure is inside a
bare `try/except: pass`, modelled by the total function
`unregisterStep`); it removes the installed record class and the
installed panel class from the host (tolerating either being absent),
removes the entry under this registrar's key from the global table, and
a repeated call is a no-op leaving the state unchanged. -/
theorem unregister_idempotent_cleanup (s : Sys) (i : Nat) (r : RegistrarState)
    (hget : s.regs[i]? = some r) :
    (∀ p, r.property_class = some p →
      ∀ h ∈ (unregisterStep s i).host, h.id ≠ p) ∧
    (∀ p, r.panel_class = some p →
      ∀ h ∈ (unregisterStep s i).host, h.id ≠ p) ∧
    dictGet (unregisterStep s i).table (regKey r) = none ∧
    unregisterStep (unregisterStep s i) i = unregisterStep s i := by
  have hilt := (List.getElem?_eq_some.mp hget).1
  have hu : unregisterStep s i =
      { regs := s.regs.set i
          { r with property_class := none, panel_class := none }
        host := hostRemove (hostRemove s.host r.property_class) r.panel_class
        table := dictDel s.table (regKey r)
        counter := s.counter } := by
    simp [unregisterStep, hget]
  have htab : dictGet (unregisterStep s i).table (regKey r) = none := by
    rw [hu]
    show dictGet (dictDel s.table (regKey r)) (regKey r) = none
    rw [dictGet_dictDel, if_pos rfl]
  refine ⟨?_, ?_, htab, ?_⟩
  · intro p hp h hm hid
    rw [hu] at hm
    have hm1 : h ∈ hostRemove s.host r.property_class :=
      (hostRemove_sublist _ r.panel_class).subset hm
    rw [hp] at hm1
    simp only [hostRemove, List.mem_filter] at hm1
    rw [hid] at hm1
    simpa using hm1.2
  · intro p hp h hm hid
    rw [hu] at hm
    have hm1 : h ∈ hostRemove (hostRemove s.host r.property_class)
        (some p) := by rw [← hp]; exact hm
    simp only [hostRemove, List.mem_filter] at hm1
    rw [hid] at hm1
    simpa using hm1.2
  · obtain ⟨s1, hs1e⟩ : ∃ s1, unregisterStep s i = s1 := ⟨_, rfl⟩
    have hr1 : s1.regs[i]? = some
        { r with property_class := none, panel_class := none } := by
      rw [← hs1e, hu]
      exact List.getElem?_set_self hilt
    have htab1 : dictGet s1.table (regKey r) = none := by
      rw [← hs1e]; exact htab
    rw [hs1e]
    have hu2 : unregisterStep s1 i =
        { regs := s1.regs.set i
            { r with property_class := none, panel_class := none }
          host := s1.host
          table := dictDel s1.table (regKey r)
          counter := s1.counter } := by
      simp [unregisterStep, hr1]
      exact ⟨rfl, rfl⟩
    rw [hu2, set_getElem?_self _ _ _ hr1,
      dictDel_of_get_none _ _ htab1]

/-- Witness for C9: both cleanup effects and idempotence at a concrete
fresh Light registrar. -/
theorem unregister_idempotent_cleanup_witness :
    dictGet (unregisterStep (initSys [("Light", "g")]) 0).table "Lightg"
      = none ∧
    unregisterStep (unregisterStep (initSys [("Light", "g")]) 0) 0 =
      unregisterStep (initSys [("Light", "g")]) 0 :=
  (fun H => ⟨H.2.2.1, H.2.2.2⟩)
    (unregister_idempotent_cleanup (initSys [("Light", "g")]) 0
      { typeName := "Light", gname := "g", title := "", panel_parent_id := "",
        coll := PropertyCollection.init true, property_class := none,
        panel_class := none } (by decide))

/-- C10: `unregister()` on a freshly constructed registrar (both class
attributes never assigned — reading them raises an `AttributeError`
that the bare `except` swallows) raises no error; afterwards both
handles are `None`, the host state is untouched, and when the global
table has no entry under the registrar's key the table is unchanged
(the swallowed `KeyError` of the `del`). -/
theorem unregister_fresh_registrar (s : Sys) (i : Nat) (r : RegistrarState)
    (hget : s.regs[i]? = some r) (hpc : r.property_class = none)
    (hpan : r.panel_class = none) :
    (unregisterStep s i).host = s.host ∧
    (unregisterStep s i).regs[i]? = some
      { r with property_class := none, panel_class := none } ∧
    (dictGet s.table (regKey r) = none →
      (unregisterStep s i).table = s.table) := by
  have hilt := (List.getElem?_eq_some.mp hget).1
  have hu : unregisterStep s i =
      { regs := s.regs.set i
          { r with property_class := none, panel_class := none }
        host := hostRemove (hostRemove s.host r.property_class) r.panel_class
        table := dictDel s.table (regKey r)
        counter := s.counter } := by
    simp [unregisterStep, hget]
  refine ⟨?_, ?_, ?_⟩
  · rw [hu]
    show hostRemove (hostRemove s.host r.property_class) r.panel_class = s.host
    rw [hpc, hpan]
    rfl
  · rw [hu]
    exact List.getElem?_set_self hilt
  · intro hnone
    rw [hu]
    show dictDel s.table (regKey r) = s.table
    exact dictDel_of_get_none _ _ hnone

/-- Witness for C10 at a concrete fresh Light registrar with an empty
table. -/
theorem unregister_fresh_registrar_witness :
    (unregisterStep (initSys [("Light", "g")]) 0).host =
      (initSys [("Light", "g")]).host ∧
    (unregisterStep (initSys [("Light", "g")]) 0).regs[0]? = some
      { typeName := "Light", gname := "g", title := "", panel_parent_id := "",
        coll := PropertyCollection.init true, property_class := none,
        panel_class := none } ∧
    (unregisterStep (initSys [("Light", "g")]) 0).table =
      (initSys [("Light", "g")]).table :=
  (fun H => ⟨H.1, H.2.1, H.2.2 rfl⟩)
    (unregister_fresh_registrar (initSys [("Light", "g")]) 0
      { typeName := "Light", gname := "g", title := "", panel_parent_id := "",
        coll := PropertyCollection.init true, property_class := none,
        panel_class := none } (by decide) rfl rfl)
